import Mathlib

/-
  Verification development for the plaid2text storage layer
  (src/python/plaid2text/storage_manager.py).

  The embedding below translates the two storage backends (MongoDB and
  SQLite), the serialization adapters, and the TEXT_DOC default metadata
  document into executable Lean definitions.  Conventions:
  - calendar dates, datetimes and timestamps are modelled as integers
    (ISO date strings compare exactly like their day numbers, so the
    string comparisons the SQLite backend performs on ISO dates coincide
    with integer comparison);
  - Python dicts / JSON objects are association lists with in-place key
    update (setKey) matching dict assignment semantics;
  - fallible Python code (raised exceptions) is modelled with Option and
    with a result pair carrying an optional error message.
-/

namespace Plaid2Text

/-- Scalar JSON/BSON value: null, boolean, number, string, or an array of
strings (the only array shape the code stores: tags, product and category
lists). -/
inductive Scal where
  | snull
  | sbool (b : Bool)
  | snum (n : Int)
  | sstr (s : String)
  | sarr (xs : List String)
deriving Repr, DecidableEq

/-- Top-level document value: either a scalar or a one-level sub-object of
scalars (the plaid2text metadata sub-document). -/
inductive JVal where
  | jScal (s : Scal)
  | jObj (fields : List (String × Scal))
deriving Repr, DecidableEq

/-- A JSON object / sub-document of scalar fields (metadata sidecar,
update patches, the SQLite plaid_json column). -/
abbrev Obj := List (String × Scal)

/-- A top-level document (a Mongo document body or a decoded SQLite row). -/
abbrev Doc := List (String × JVal)

/-- Key lookup in an association list (Python dict access / json_extract:
first matching key wins; keys are unique in every object the code builds). -/
def getKey {α : Type} : List (String × α) → String → Option α
  | [], _ => none
  | p :: rest, k => if p.1 = k then some p.2 else getKey rest k

/-- Key update in an association list (Python dict assignment: replace the
existing entry in place, otherwise append). -/
def setKey {α : Type} : List (String × α) → String → α → List (String × α)
  | [], k, v => [(k, v)]
  | p :: rest, k, v => if p.1 = k then (k, v) :: rest else p :: setKey rest k v

/-- Apply a list of key-value assignments left to right (the effect of a
Mongo dollar-set with the given field map, or of merging a JSON patch). -/
def setAll {α : Type} : List (String × α) → List (String × α) → List (String × α)
  | d, [] => d
  | d, kv :: rest => setAll (setKey d kv.1 kv.2) rest

/-- Optional string to JSON: None becomes an explicit null. -/
def optStr : Option String → Scal
  | none => .snull
  | some s => .sstr s

/-- Optional number/timestamp to JSON: None becomes an explicit null. -/
def optNum : Option Int → Scal
  | none => .snull
  | some n => .snum n

/-- Optional string list to JSON: None becomes an explicit null. -/
def optArr : Option (List String) → Scal
  | none => .snull
  | some xs => .sarr xs

/-- A transaction as handed to the storage layer: the upstream plaid
Transaction fields the code reads (spec section 3), plus the optional
plaid2text metadata the SQLite saver reads with t.get, absent on records
coming from the upstream API. -/
structure Txn where
  account_id : String
  transaction_id : String
  amount : Int
  iso_currency_code : Option String
  category : Option (List String)
  category_id : Option String
  date : Int
  name : String
  pending : Bool
  pending_transaction_id : Option String
  account_owner : Option String
  authorized_date : Option Int
  datetime : Option Int
  payment_channel : String
  plaid2text : Option Obj
deriving Repr, DecidableEq

/-- The plaid2text sub-document of TEXT_DOC: tags, payee,
posting_account and associated_account empty, date_downloaded the module
load timestamp, date_last_pulled the empty string literal (not null), and
pulled_to_file false. -/
def defaultSidecar (loadTime : Int) : Obj :=
  [("tags", .sarr []),
   ("payee", .sstr ""),
   ("posting_account", .sstr ""),
   ("associated_account", .sstr ""),
   ("date_downloaded", .snum loadTime),
   ("date_last_pulled", .sstr ""),
   ("pulled_to_file", .sbool false)]

/-- TEXT_DOC: the default metadata document applied on insert.  It is a
module level constant in the source, so date_downloaded is the timestamp
of module load (datetime.datetime.today() evaluated once at import), not
of any later insert. -/
def TEXT_DOC (loadTime : Int) : Doc :=
  [("plaid2text", .jObj (defaultSidecar loadTime))]

/-- serialize_transaction: builds the plain mapping stored in the SQLite
plaid_json column.  obj.authorized_date.isoformat() is called without a
None guard, so a None authorized_date raises AttributeError, modelled as
none; the datetime field, by contrast, is mapped to an explicit null when
absent. -/
def serialize_transaction (obj : Txn) : Option Obj :=
  match obj.authorized_date with
  | none => none
  | some ad => some [
      ("account_id", .sstr obj.account_id),
      ("amount", .snum obj.amount),
      ("iso_currency_code", optStr obj.iso_currency_code),
      ("category", optArr obj.category),
      ("category_id", optStr obj.category_id),
      ("date", .snum obj.date),
      ("name", .sstr obj.name),
      ("pending", .sbool obj.pending),
      ("pending_transaction_id", optStr obj.pending_transaction_id),
      ("account_owner", optStr obj.account_owner),
      ("transaction_id", .sstr obj.transaction_id),
      ("authorized_date", .snum ad),
      ("datetime", optNum obj.datetime),
      ("payment_channel", .sstr obj.payment_channel)]

/-- The item/connection object consumed by serialize_item. -/
structure Item where
  item_id : String
  webhook : Option String
  available_products : List String
  billed_products : List String
  consent_expiration_time : Option Int
  update_type : String
  institution_id : Option String
  products : List String
deriving Repr, DecidableEq

/-- serialize_item: total; the nullable consent_expiration_time is mapped
to an explicit null by the if/else in the source. -/
def serialize_item (obj : Item) : Obj :=
  [("item_id", .sstr obj.item_id),
   ("webhook", optStr obj.webhook),
   ("available_products", .sarr obj.available_products),
   ("billed_products", .sarr obj.billed_products),
   ("consent_expiration_time", optNum obj.consent_expiration_time),
   ("update_type", .sstr obj.update_type),
   ("institution_id", optStr obj.institution_id),
   ("products", .sarr obj.products)]

/-- Date-bound predicate common to both get_transactions implementations:
both bounds present applies the inclusive range only when from_date is at
most to_date (otherwise no date condition is added, because the
conjunction guarding the range branch fails and the elif branches require
the other bound to be absent); a single bound gives a one-sided
comparison; no bounds means no filter. -/
def dateBound (from_date to_date : Option Int) (d : Int) : Bool :=
  match from_date, to_date with
  | some f, some t => if f ≤ t then decide (f ≤ d) && decide (d ≤ t) else true
  | some f, none => decide (f ≤ d)
  | none, some t => decide (d ≤ t)
  | none, none => true

/-- An entry of the list passed to update_transaction: the code pops the
transaction_id key and treats the remaining dict as the metadata patch. -/
structure UpdateEntry where
  transaction_id : String
  fields : Obj
deriving Repr, DecidableEq

/-- The metadata object the updater writes for one entry: the patch fields
with pulled_to_file set to the mark_pulled argument (an explicit null when
the argument is None), and date_last_pulled stamped with the current time
exactly when mark_pulled is truthy. -/
def buildPatch (e : UpdateEntry) (mark_pulled : Option Bool) (now : Int) : Obj :=
  let o1 := setKey e.fields "pulled_to_file"
    (match mark_pulled with | none => .snull | some b => .sbool b)
  match mark_pulled with
  | some true => setKey o1 "date_last_pulled" (.snum now)
  | _ => o1

/-- A document of the Mongo collection: its primary identifier (the
underscore-id field, always the transaction_id) and the remaining fields. -/
structure MDoc where
  oid : String
  fields : Doc
deriving Repr, DecidableEq, Inhabited

/-- The Mongo collection state for one account. -/
abbrev MongoState := List MDoc

/-- to_dict of a plaid Transaction: the plain mapping of the upstream API
fields (spec section 3).  It never contains a plaid2text key: that key
exists only on stored documents. -/
def Txn.to_dict (t : Txn) : Doc :=
  [("account_id", .jScal (.sstr t.account_id)),
   ("amount", .jScal (.snum t.amount)),
   ("iso_currency_code", .jScal (optStr t.iso_currency_code)),
   ("category", .jScal (optArr t.category)),
   ("category_id", .jScal (optStr t.category_id)),
   ("date", .jScal (.snum t.date)),
   ("name", .jScal (.sstr t.name)),
   ("pending", .jScal (.sbool t.pending)),
   ("pending_transaction_id", .jScal (optStr t.pending_transaction_id)),
   ("account_owner", .jScal (optStr t.account_owner)),
   ("transaction_id", .jScal (.sstr t.transaction_id)),
   ("authorized_date", .jScal (optNum t.authorized_date)),
   ("datetime", .jScal (optNum t.datetime)),
   ("payment_channel", .jScal (.sstr t.payment_channel))]

/-- The field map the Mongo saver passes to dollar-set: to_dict with the
date normalized to a midnight datetime (same day number here) and, when
authorized_date is not None, the same normalization for it; a None
authorized_date raises inside the try block and the except clause leaves
the None value in place. -/
def mongoPayload (t : Txn) : Doc :=
  let d1 := setKey (Txn.to_dict t) "date" (.jScal (.snum t.date))
  match t.authorized_date with
  | some a => setKey d1 "authorized_date" (.jScal (.snum a))
  | none => d1

/-- upsert of one non-pending transaction by the Mongo saver
(update_many on the underscore-id with upsert true): if a document with
this id exists, dollar-set applies the payload fields to it; otherwise a
new document is inserted carrying the payload fields plus the
dollar-setOnInsert TEXT_DOC default metadata. -/
def mongoSaveOne (loadTime : Int) (st : MongoState) (t : Txn) : MongoState :=
  if t.pending then st
  else
    let payload := mongoPayload t
    if st.any (fun md => decide (md.oid = t.transaction_id)) then
      st.map (fun md =>
        if md.oid = t.transaction_id
        then { md with fields := setAll md.fields payload }
        else md)
    else
      st ++ [{ oid := t.transaction_id,
               fields := setAll (setAll [] payload) (TEXT_DOC loadTime) }]

/-- MongoDBStorage.save_transactions: iterate the batch, skipping pending
transactions and upserting the rest.  The save never reads the clock: the
now argument records the wall time of the call but the stored default
metadata timestamp comes from TEXT_DOC, fixed at module load. -/
def MongoDBStorage.save_transactions (loadTime now : Int) (st : MongoState) (ts : List Txn) : MongoState :=
  match ts with
  | [] => st
  | t :: rest =>
      MongoDBStorage.save_transactions loadTime now (mongoSaveOne loadTime st t) rest

/-- The only_new query predicate of the Mongo reader: the nested
plaid2text.pulled_to_file path not equal to true, which also matches
documents where the path is missing. -/
def pulledNeTrue (md : MDoc) : Bool :=
  match getKey md.fields "plaid2text" with
  | some (.jObj o) =>
      match getKey o "pulled_to_file" with
      | some (.sbool true) => false
      | _ => true
  | _ => true

/-- The date of a document as the Mongo sort and date filter see it
(stored documents always carry a datetime in the date field). -/
def docDate (md : MDoc) : Int :=
  match getKey md.fields "date" with
  | some (.jScal (.snum n)) => n
  | _ => 0

/-- Stable insertion of a document into a date-ascending list. -/
def insertByDate (md : MDoc) : List MDoc → List MDoc
  | [] => [md]
  | x :: xs => if docDate x ≤ docDate md then x :: insertByDate md xs else md :: x :: xs

/-- Date-ascending sort applied by the Mongo reader (sort on date,
ascending). -/
def sortByDate : List MDoc → List MDoc
  | [] => []
  | x :: xs => insertByDate x (sortByDate xs)

/-- MongoDBStorage.get_transactions: one filter combining the only_new
predicate and the date bounds, results sorted ascending by date. -/
def MongoDBStorage.get_transactions (st : MongoState) (from_date to_date : Option Int) (only_new : Bool := true) : List MDoc :=
  sortByDate (st.filter (fun md =>
    (!only_new || pulledNeTrue md) && dateBound from_date to_date (docDate md)))

/-- Update the first document with the given id (update_one semantics). -/
def updateFirst (st : MongoState) (id : String) (f : MDoc → MDoc) : MongoState :=
  match st with
  | [] => []
  | md :: rest => if md.oid = id then f md :: rest else md :: updateFirst rest id f

/-- MongoDBStorage.update_transaction: for each entry, dollar-set the
whole plaid2text field to the patched object — a replacement of the
metadata sub-document, not a merge into it.  A missing id is a no-op
(update_one without upsert). -/
def MongoDBStorage.update_transaction (st : MongoState) (update : List UpdateEntry) (mark_pulled : Option Bool) (now : Int) : MongoState :=
  match update with
  | [] => st
  | e :: rest =>
      MongoDBStorage.update_transaction
        (updateFirst st e.transaction_id (fun md =>
          { md with fields := setKey md.fields "plaid2text" (.jObj (buildPatch e mark_pulled now)) }))
        rest mark_pulled now

/-- MongoDBStorage.check_pending: whether any document matches the
pulled_to_file not equal true query. -/
def MongoDBStorage.check_pending (st : MongoState) : Bool :=
  !(st.filter pulledNeTrue).isEmpty

/-- A row of the SQLite transactions table.  created and updated hold the
insert/update timestamps; plaid_json holds the serialized core record;
metadata holds the JSON metadata column, none for SQL NULL. -/
structure Row where
  account_id : String
  transaction_id : String
  created : Int
  updated : Int
  plaid_json : Obj
  metadata : Option Obj
deriving Repr, DecidableEq, Inhabited

/-- The SQLite transactions table, in rowid (insertion) order. -/
abbrev SqliteState := List Row

/-- The insert-or-update-on-conflict of the SQLite saver, keyed by the
unique (account_id, transaction_id) index: on conflict it sets updated,
plaid_json and metadata from the excluded (incoming) row — the metadata
column is overwritten with the incoming value, not left untouched. -/
def upsertRow (st : SqliteState) (aid tid : String) (now : Int) (pj : Obj) (meta : Option Obj) : SqliteState :=
  match st with
  | [] => [{ account_id := aid, transaction_id := tid, created := now,
             updated := now, plaid_json := pj, metadata := meta }]
  | r :: rest =>
      if r.account_id = aid ∧ r.transaction_id = tid then
        { r with updated := now, plaid_json := pj, metadata := meta } :: rest
      else r :: upsertRow rest aid tid now pj meta

/-- SQLiteStorage.save_transactions: iterate the batch with no pending
check, serializing each record.  A record whose serialization raises (a
None authorized_date) aborts the loop with the rows committed so far kept
(each iteration commits); the error is carried in the second component. -/
def SQLiteStorage.save_transactions (st : SqliteState) (now : Int) (ts : List Txn) : SqliteState × Option String :=
  match ts with
  | [] => (st, none)
  | t :: rest =>
      match serialize_transaction t with
      | none => (st, some "AttributeError: NoneType object has no attribute isoformat")
      | some pj =>
          SQLiteStorage.save_transactions
            (upsertRow st t.account_id t.transaction_id now pj t.plaid2text) now rest

/-- The only_new condition of the SQLite reader: coalesce of
json_extract(plaid_json, dollar.pulled_to_file) with false, compared equal
to false.  A missing path or a JSON null extract to SQL NULL and coalesce
to false (row kept); booleans extract to 1/0; a non-numeric string or an
array never compares equal to 0. -/
def pulledExtractFalse (pj : Obj) : Bool :=
  match getKey pj "pulled_to_file" with
  | none => true
  | some .snull => true
  | some (.sbool b) => !b
  | some (.snum n) => decide (n = 0)
  | some (.sstr _) => false
  | some (.sarr _) => false

/-- The date of a row as json_extract reads it from the core column. -/
def rowDate (r : Row) : Int :=
  match getKey r.plaid_json "date" with
  | some (.snum n) => n
  | _ => 0

/-- The WHERE clause of the SQLite reader: the optional only_new condition
conjoined with the same date-bound construction as the Mongo reader. -/
def rowMatches (only_new : Bool) (from_date to_date : Option Int) (r : Row) : Bool :=
  (if only_new then pulledExtractFalse r.plaid_json else true)
    && dateBound from_date to_date (rowDate r)

/-- Decode one fetched row into the returned record: the core JSON fields,
with plaid2text set from the metadata column — an absent (NULL) column and
a column decoding to an empty object are both surfaced as null, so a
never-touched record is distinguishable from explicit metadata. -/
def decodeRow (r : Row) : Doc :=
  let t : Doc := r.plaid_json.map (fun p => (p.1, JVal.jScal p.2))
  let meta : JVal :=
    match r.metadata with
    | some m => if m.length = 0 then .jScal .snull else .jObj m
    | none => .jScal .snull
  setKey t "plaid2text" meta

/-- SQLiteStorage.get_transactions: fetch the matching rows in table
order (the query has no ORDER BY), then print the first fetched row —
an IndexError when the result set is empty — and decode each row. -/
def SQLiteStorage.get_transactions (st : SqliteState) (from_date to_date : Option Int) (only_new : Bool := true) : Except String (List Doc) :=
  match st.filter (rowMatches only_new from_date to_date) with
  | [] => .error "IndexError: list index out of range"
  | r :: rest => .ok ((r :: rest).map decodeRow)

/-- SQLiteStorage.update_transaction: the body assigns the undefined
Python name null to the archived key before reaching the SQL statement,
so the first iteration raises NameError and no row is touched; an empty
update list never enters the loop and succeeds trivially. -/
def SQLiteStorage.update_transaction (st : SqliteState) (update : List UpdateEntry) (mark_pulled : Option Bool) (now : Int) : SqliteState × Option String :=
  match update with
  | [] => (st, none)
  | _ :: _ => (st, some "NameError: name null is not defined")

/-- The observable behavior of one invocation of a check_pending
implementation. -/
structure CheckPendingBehavior where
  printsNotImplementedMessage : Bool
  returnsBool : Option Bool
  raisesUnsupported : Bool
  raisesTypeErrorOnBoundCall : Bool
deriving Repr, DecidableEq

/-- SQLiteStorage.check_pending: the body prints a console message that
the function is not implemented and falls off the end, returning None —
no boolean answer and no raised UnsupportedOperation.  The def takes no
self parameter, so invoking it as a bound method raises TypeError. -/
def SQLiteStorage.check_pending : CheckPendingBehavior :=
  { printsNotImplementedMessage := true
  , returnsBool := none
  , raisesUnsupported := false
  , raisesTypeErrorOnBoundCall := true }

/-! Observation helpers over the two stores. -/

/-- The first Mongo document with the given id. -/
def mongoFindDoc (st : MongoState) (id : String) : Option MDoc :=
  match st with
  | [] => none
  | md :: rest => if md.oid = id then some md else mongoFindDoc rest id

/-- The stored plaid2text value of the document with the given id. -/
def mongoMetadataOf (st : MongoState) (id : String) : Option JVal :=
  (mongoFindDoc st id).bind (fun md => getKey md.fields "plaid2text")

/-- One field of the stored plaid2text sub-document of the given id. -/
def mongoSidecarGet (st : MongoState) (id : String) (k : String) : Option Scal :=
  match mongoMetadataOf st id with
  | some (.jObj o) => getKey o k
  | _ => none

/-- The first SQLite row with the given natural key. -/
def sqliteFindRow (st : SqliteState) (aid tid : String) : Option Row :=
  match st with
  | [] => none
  | r :: rest =>
      if r.account_id = aid ∧ r.transaction_id = tid then some r
      else sqliteFindRow rest aid tid

/-- The stored metadata column of the row with the given natural key:
none when no row exists, some none when the row exists with a NULL
metadata column. -/
def sqliteMetadataOf (st : SqliteState) (aid tid : String) : Option (Option Obj) :=
  (sqliteFindRow st aid tid).map (fun r => r.metadata)

/-- The record list of a fetch result, empty when the fetch raised. -/
def exceptList (r : Except String (List Doc)) : List Doc :=
  match r with
  | .ok l => l
  | .error _ => []

/-- Whether a fetch result contains a record with the given
transaction_id (an erroring fetch contains nothing). -/
def resultIncludesId (r : Except String (List Doc)) (id : String) : Bool :=
  (exceptList r).any (fun d => decide (getKey d "transaction_id" = some (.jScal (.sstr id))))

/-- Whether a document list is ascending in the date field. -/
def datesSortedB : List MDoc → Bool
  | [] => true
  | [_] => true
  | a :: b :: rest => decide (docDate a ≤ docDate b) && datesSortedB (b :: rest)

/-! Reachable Mongo states: every state obtainable from the empty
collection through the public mutators. -/

/-- A mutating call on the Mongo backend. -/
inductive MongoOp where
  | save (now : Int) (ts : List Txn)
  | update (u : List UpdateEntry) (mark_pulled : Option Bool) (now : Int)
deriving Repr

/-- Apply one mutating call. -/
def mongoApply (loadTime : Int) (st : MongoState) : MongoOp → MongoState
  | .save now ts => MongoDBStorage.save_transactions loadTime now st ts
  | .update u mp now => MongoDBStorage.update_transaction st u mp now

/-- The state reached from the empty collection by a call sequence. -/
def mongoReach (loadTime : Int) (ops : List MongoOp) : MongoState :=
  ops.foldl (mongoApply loadTime) []

/-! Concrete instances used by counterexamples and witnesses. -/

/-- A settled transaction as delivered by the upstream API. -/
def txnA : Txn :=
  { account_id := "A1", transaction_id := "T1", amount := 1250,
    iso_currency_code := some "USD", category := some ["Food and Drink"],
    category_id := some "13005000", date := 10, name := "COFFEE SHOP",
    pending := false, pending_transaction_id := none, account_owner := none,
    authorized_date := some 9, datetime := none,
    payment_channel := "in store", plaid2text := none }

/-- A second settled transaction with an earlier date. -/
def txnB : Txn :=
  { txnA with
    transaction_id := "T2", date := 5, authorized_date := some 4,
    name := "GROCERY" }

/-- A pending transaction. -/
def txnP : Txn :=
  { txnA with
    transaction_id := "TP", date := 7, authorized_date := some 7,
    pending := true, name := "PENDING CARD HOLD" }

/-- A transaction whose authorized_date is None, as for ATM withdrawals. -/
def txnNoAuth : Txn :=
  { txnA with
    transaction_id := "TN", date := 4, authorized_date := none,
    name := "ATM WITHDRAWAL" }

/-- The transaction of txnA carrying an explicit plaid2text object. -/
def txnM : Txn :=
  { txnA with plaid2text := some [("payee", .sstr "Blue Bottle")] }

/-- The SQLite table after saving txnA into an empty database at time 0. -/
def stS1 : SqliteState := (SQLiteStorage.save_transactions [] 0 [txnA]).1

/-- The Mongo collection after saving txnA into an empty collection
(module loaded at time 0, save called at time 0). -/
def stM1 : MongoState := MongoDBStorage.save_transactions 0 0 [] [txnA]

/-- The collection stM1 after marking T1 as pulled with a patch naming
only posting_account. -/
def stM3 : MongoState :=
  MongoDBStorage.update_transaction stM1
    [{ transaction_id := "T1", fields := [("posting_account", .sstr "Assets:Checking")] }]
    (some true) 7

/-- The document returned for txnA by the Mongo reader on the state
reached by one save call. -/
def mdW : MDoc :=
  (MongoDBStorage.get_transactions (mongoReach 0 [MongoOp.save 0 [txnA]]) none none true).headI

/-- The row stored for txnA in stS1. -/
def rowW : Row := stS1.headI

/-- An item object whose nullable fields are all absent. -/
def itemN : Item :=
  { item_id := "I1", webhook := none, available_products := ["transactions"],
    billed_products := [], consent_expiration_time := none,
    update_type := "background", institution_id := none,
    products := ["transactions"] }

/-- The key list of to_dict, used to reason about which fields a
dollar-set of the payload can touch. -/
def toDictKeys : List String :=
  ["account_id", "amount", "iso_currency_code", "category", "category_id",
   "date", "name", "pending", "pending_transaction_id", "account_owner",
   "transaction_id", "authorized_date", "datetime", "payment_channel"]

/-- Invariant of every reachable Mongo collection: all stored documents
are settled (pending false) and carry a nonempty plaid2text sub-document. -/
def MongoInv (st : MongoState) : Prop :=
  ∀ md ∈ st,
    getKey md.fields "pending" = some (.jScal (.sbool false))
    ∧ ∃ o, getKey md.fields "plaid2text" = some (.jObj o) ∧ o ≠ []

/-! Association-list lemmas. -/

theorem getKey_setKey_self {α : Type} (d : List (String × α)) (k : String) (v : α) :
    getKey (setKey d k v) k = some v := by
  induction d with
  | nil => simp [setKey, getKey]
  | cons p rest ih =>
      by_cases h : p.1 = k
      · simp [setKey, getKey, h]
      · simp [setKey, getKey, h, ih]

theorem getKey_setKey_ne {α : Type} (d : List (String × α)) (k k' : String) (v : α)
    (h : k ≠ k') : getKey (setKey d k v) k' = getKey d k' := by
  induction d with
  | nil => simp [setKey, getKey, h]
  | cons p rest ih =>
      by_cases hp : p.1 = k
      · subst hp
        simp [setKey, getKey, h]
      · simp only [setKey, if_neg hp]
        by_cases hp' : p.1 = k'
        · simp [getKey, hp']
        · simp [getKey, hp', ih]

theorem setKey_ne_nil {α : Type} (d : List (String × α)) (k : String) (v : α) :
    setKey d k v ≠ [] := by
  cases d with
  | nil => simp [setKey]
  | cons p rest =>
      by_cases h : p.1 = k <;> simp [setKey, h]

theorem mem_keys_setKey {α : Type} (d : List (String × α)) (k x : String) (v : α)
    (h : x ∈ (setKey d k v).map Prod.fst) : x ∈ d.map Prod.fst ∨ x = k := by
  induction d with
  | nil => simpa [setKey] using h
  | cons p rest ih =>
      simp only [List.map_cons, List.mem_cons]
      by_cases hp : p.1 = k
      · simp only [setKey, if_pos hp, List.map_cons, List.mem_cons] at h
        rcases h with h | h
        · exact Or.inr h
        · exact Or.inl (Or.inr h)
      · simp only [setKey, if_neg hp, List.map_cons, List.mem_cons] at h
        rcases h with h | h
        · exact Or.inl (Or.inl h)
        · rcases ih h with h' | h'
          · exact Or.inl (Or.inr h')
          · exact Or.inr h'

theorem keys_setKey_mem {α : Type} (d : List (String × α)) (k : String) (v : α)
    (h : k ∈ d.map Prod.fst) : (setKey d k v).map Prod.fst = d.map Prod.fst := by
  induction d with
  | nil => simp at h
  | cons p rest ih =>
      by_cases hp : p.1 = k
      · simp [setKey, hp]
      · simp only [List.map_cons, List.mem_cons] at h
        rcases h with h | h
        · exact absurd h.symm hp
        · simp [setKey, hp, ih h]

theorem getKey_setAll_not_mem {α : Type} (kvs d : List (String × α)) (k : String)
    (h : k ∉ kvs.map Prod.fst) : getKey (setAll d kvs) k = getKey d k := by
  induction kvs generalizing d with
  | nil => simp [setAll]
  | cons kv rest ih =>
      simp only [List.map_cons, List.mem_cons, not_or] at h
      simp only [setAll]
      rw [ih _ h.2, getKey_setKey_ne _ _ _ _ (fun hk => h.1 hk.symm)]

theorem getKey_setAll_mem {α : Type} (kvs d : List (String × α)) (k : String) (v : α)
    (hnd : (kvs.map Prod.fst).Nodup) (h : getKey kvs k = some v) :
    getKey (setAll d kvs) k = some v := by
  induction kvs generalizing d with
  | nil => simp [getKey] at h
  | cons kv rest ih =>
      simp only [List.map_cons, List.nodup_cons] at hnd
      by_cases hk : kv.1 = k
      · simp only [getKey, if_pos hk] at h
        subst hk
        simp only [setAll]
        rw [getKey_setAll_not_mem _ _ _ hnd.1, getKey_setKey_self]
        exact h
      · simp only [getKey, if_neg hk] at h
        simp only [setAll]
        exact ih _ hnd.2 h

/-! Keys of the Mongo dollar-set payload. -/

theorem to_dict_keys (t : Txn) : (Txn.to_dict t).map Prod.fst = toDictKeys := rfl

theorem mongoPayload_keys (t : Txn) : (mongoPayload t).map Prod.fst = toDictKeys := by
  unfold mongoPayload
  cases ha : t.authorized_date with
  | none =>
      simp only
      rw [keys_setKey_mem, to_dict_keys]
      rw [to_dict_keys]; decide
  | some a =>
      simp only
      rw [keys_setKey_mem, keys_setKey_mem, to_dict_keys]
      · rw [to_dict_keys]; decide
      · rw [keys_setKey_mem, to_dict_keys]
        · decide
        · rw [to_dict_keys]; decide

theorem getKey_setAll_payload_plaid2text (t : Txn) (d : Doc) :
    getKey (setAll d (mongoPayload t)) "plaid2text" = getKey d "plaid2text" := by
  apply getKey_setAll_not_mem
  rw [mongoPayload_keys]
  decide

theorem getKey_payload_pending (t : Txn) :
    getKey (mongoPayload t) "pending" = some (.jScal (.sbool t.pending)) := by
  unfold mongoPayload
  cases ha : t.authorized_date with
  | none =>
      simp only
      rw [getKey_setKey_ne _ _ _ _ (by decide)]
      rfl
  | some a =>
      simp only
      rw [getKey_setKey_ne _ _ _ _ (by decide),
          getKey_setKey_ne _ _ _ _ (by decide)]
      rfl

theorem getKey_setAll_payload_pending (t : Txn) (d : Doc) :
    getKey (setAll d (mongoPayload t)) "pending" = some (.jScal (.sbool t.pending)) := by
  apply getKey_setAll_mem
  · rw [mongoPayload_keys]; decide
  · exact getKey_payload_pending t

/-! Lookup lemmas for the Mongo collection. -/

theorem mongoFindDoc_map (st : MongoState) (id : String) (g : MDoc → MDoc)
    (hg : ∀ md, (g md).oid = md.oid) :
    mongoFindDoc (st.map (fun md => if md.oid = id then g md else md)) id
      = (mongoFindDoc st id).map g := by
  induction st with
  | nil => rfl
  | cons md rest ih =>
      by_cases h : md.oid = id
      · simp only [List.map_cons, if_pos h, mongoFindDoc]
        rw [if_pos (by rw [hg]; exact h)]
        rfl
      · simp only [List.map_cons, if_neg h, mongoFindDoc]
        exact ih

theorem mongoFindDoc_append (st l : MongoState) (id : String)
    (h : mongoFindDoc st id = none) :
    mongoFindDoc (st ++ l) id = mongoFindDoc l id := by
  induction st with
  | nil => rfl
  | cons md rest ih =>
      simp only [mongoFindDoc] at h
      by_cases hm : md.oid = id
      · rw [if_pos hm] at h; cases h
      · rw [if_neg hm] at h
        simp only [List.cons_append, mongoFindDoc, if_neg hm]
        exact ih h

theorem any_oid_eq_isSome (st : MongoState) (id : String) :
    st.any (fun md => decide (md.oid = id)) = (mongoFindDoc st id).isSome := by
  induction st with
  | nil => rfl
  | cons md rest ih =>
      by_cases h : md.oid = id
      · simp [mongoFindDoc, h]
      · simp only [List.any_cons, mongoFindDoc, if_neg h, decide_eq_false h,
          Bool.false_or]
        exact ih

/-! Effect of the Mongo saver on the stored metadata. -/

theorem mongoMetadataOf_saveOne_existing (loadTime : Int) (st : MongoState) (t : Txn)
    (hp : t.pending = false) (h : (mongoFindDoc st t.transaction_id).isSome = true) :
    mongoMetadataOf (mongoSaveOne loadTime st t) t.transaction_id
      = mongoMetadataOf st t.transaction_id := by
  have hany : st.any (fun md => decide (md.oid = t.transaction_id)) = true := by
    rw [any_oid_eq_isSome]; exact h
  unfold mongoSaveOne
  rw [if_neg (by simp [hp]), if_pos hany]
  unfold mongoMetadataOf
  rw [mongoFindDoc_map st t.transaction_id
    (fun md => { md with fields := setAll md.fields (mongoPayload t) }) (fun md => rfl)]
  cases hf : mongoFindDoc st t.transaction_id with
  | none => rfl
  | some md =>
      simp only [Option.map_some', Option.some_bind]
      exact getKey_setAll_payload_plaid2text t md.fields

theorem mongoMetadataOf_saveOne_new (loadTime : Int) (st : MongoState) (t : Txn)
    (hp : t.pending = false) (h : mongoFindDoc st t.transaction_id = none) :
    mongoMetadataOf (mongoSaveOne loadTime st t) t.transaction_id
      = some (.jObj (defaultSidecar loadTime)) := by
  have hany : st.any (fun md => decide (md.oid = t.transaction_id)) = false := by
    rw [any_oid_eq_isSome, h]; rfl
  unfold mongoSaveOne
  rw [if_neg (by simp [hp]), if_neg (by simp [hany])]
  unfold mongoMetadataOf
  rw [mongoFindDoc_append _ _ _ h]
  simp [mongoFindDoc, TEXT_DOC, setAll, getKey_setKey_self]

theorem mongoFindDoc_saveOne_isSome (loadTime : Int) (st : MongoState) (t : Txn)
    (hp : t.pending = false) :
    (mongoFindDoc (mongoSaveOne loadTime st t) t.transaction_id).isSome = true := by
  cases hany : st.any (fun md => decide (md.oid = t.transaction_id)) with
  | true =>
      unfold mongoSaveOne
      rw [if_neg (by simp [hp]), if_pos hany]
      rw [mongoFindDoc_map st t.transaction_id
        (fun md => { md with fields := setAll md.fields (mongoPayload t) }) (fun md => rfl)]
      rw [any_oid_eq_isSome] at hany
      cases hf : mongoFindDoc st t.transaction_id with
      | none => rw [hf] at hany; cases hany
      | some md => rfl
  | false =>
      have hnone : mongoFindDoc st t.transaction_id = none := by
        rw [any_oid_eq_isSome] at hany
        cases hf : mongoFindDoc st t.transaction_id with
        | none => rfl
        | some md => rw [hf] at hany; cases hany
      unfold mongoSaveOne
      rw [if_neg (by simp [hp]), if_neg (by simp [hany])]
      rw [mongoFindDoc_append _ _ _ hnone]
      simp [mongoFindDoc]

/-! Effect of the SQLite saver on the stored metadata. -/

theorem sqliteMetadataOf_upsert (st : SqliteState) (aid tid : String) (now : Int)
    (pj : Obj) (m : Option Obj) :
    sqliteMetadataOf (upsertRow st aid tid now pj m) aid tid = some m := by
  induction st with
  | nil => simp [upsertRow, sqliteMetadataOf, sqliteFindRow]
  | cons r rest ih =>
      by_cases h : r.account_id = aid ∧ r.transaction_id = tid
      · simp only [upsertRow, if_pos h]
        simp [sqliteMetadataOf, sqliteFindRow, h.1, h.2]
      · simp only [upsertRow, if_neg h]
        simp only [sqliteMetadataOf, sqliteFindRow, if_neg h] at ih ⊢
        exact ih

theorem sqlite_save_single (st : SqliteState) (now : Int) (t : Txn) :
    (SQLiteStorage.save_transactions st now [t]).1
      = match serialize_transaction t with
        | none => st
        | some pj => upsertRow st t.account_id t.transaction_id now pj t.plaid2text := by
  cases h : serialize_transaction t <;>
    simp [SQLiteStorage.save_transactions, h]

/-! The Mongo collection invariant is preserved by every operation. -/

theorem buildPatch_ne_nil (e : UpdateEntry) (mp : Option Bool) (now : Int) :
    buildPatch e mp now ≠ [] := by
  unfold buildPatch
  cases mp with
  | none => exact setKey_ne_nil _ _ _
  | some b =>
      cases b with
      | false => exact setKey_ne_nil _ _ _
      | true => exact setKey_ne_nil _ _ _

theorem insertDoc_pending (loadTime : Int) (t : Txn) :
    getKey (setAll (setAll [] (mongoPayload t)) (TEXT_DOC loadTime)) "pending"
      = some (.jScal (.sbool t.pending)) := by
  simp only [TEXT_DOC, setAll]
  rw [getKey_setKey_ne _ _ _ _ (by decide)]
  exact getKey_setAll_payload_pending t []

theorem insertDoc_plaid2text (loadTime : Int) (t : Txn) :
    getKey (setAll (setAll [] (mongoPayload t)) (TEXT_DOC loadTime)) "plaid2text"
      = some (.jObj (defaultSidecar loadTime)) := by
  simp only [TEXT_DOC, setAll]
  exact getKey_setKey_self _ _ _

theorem MongoInv_saveOne (loadTime : Int) (st : MongoState) (t : Txn)
    (h : MongoInv st) : MongoInv (mongoSaveOne loadTime st t) := by
  unfold mongoSaveOne
  by_cases hp : t.pending = true
  · rw [if_pos hp]; exact h
  · have hpf : t.pending = false := by
      cases hb : t.pending with
      | false => rfl
      | true => exact absurd hb hp
    rw [if_neg hp]
    by_cases hany : st.any (fun md => decide (md.oid = t.transaction_id)) = true
    · rw [if_pos hany]
      intro md' hmd'
      rcases List.mem_map.mp hmd' with ⟨md, hmd, rfl⟩
      by_cases hid : md.oid = t.transaction_id
      · rw [if_pos hid]
        constructor
        · show getKey (setAll md.fields (mongoPayload t)) "pending" = _
          rw [getKey_setAll_payload_pending, hpf]
        · rcases (h md hmd).2 with ⟨o, ho, hne⟩
          refine ⟨o, ?_, hne⟩
          show getKey (setAll md.fields (mongoPayload t)) "plaid2text" = _
          rw [getKey_setAll_payload_plaid2text]
          exact ho
      · rw [if_neg hid]
        exact h md hmd
    · rw [if_neg hany]
      intro md' hmd'
      rcases List.mem_append.mp hmd' with hmem | hmem
      · exact h md' hmem
      · have heq := List.mem_singleton.mp hmem
        subst heq
        constructor
        · show getKey (setAll (setAll [] (mongoPayload t)) (TEXT_DOC loadTime)) "pending" = _
          rw [insertDoc_pending, hpf]
        · exact ⟨defaultSidecar loadTime, insertDoc_plaid2text _ _,
            by simp [defaultSidecar]⟩

theorem MongoInv_save (loadTime now : Int) (st : MongoState) (ts : List Txn)
    (h : MongoInv st) : MongoInv (MongoDBStorage.save_transactions loadTime now st ts) := by
  induction ts generalizing st with
  | nil => exact h
  | cons t rest ih => exact ih _ (MongoInv_saveOne _ _ _ h)

theorem mem_updateFirst (st : MongoState) (id : String) (f : MDoc → MDoc) (x : MDoc)
    (h : x ∈ updateFirst st id f) : x ∈ st ∨ ∃ md, md ∈ st ∧ x = f md := by
  induction st with
  | nil => simp [updateFirst] at h
  | cons md rest ih =>
      by_cases hm : md.oid = id
      · simp only [updateFirst, if_pos hm] at h
        rcases List.mem_cons.mp h with heq | hmem
        · exact Or.inr ⟨md, List.mem_cons_self _ _, heq⟩
        · exact Or.inl (List.mem_cons_of_mem _ hmem)
      · simp only [updateFirst, if_neg hm] at h
        rcases List.mem_cons.mp h with heq | hmem
        · exact Or.inl (heq ▸ List.mem_cons_self _ _)
        · rcases ih hmem with h' | ⟨md2, hmd2, heq⟩
          · exact Or.inl (List.mem_cons_of_mem _ h')
          · exact Or.inr ⟨md2, List.mem_cons_of_mem _ hmd2, heq⟩

theorem MongoInv_update (st : MongoState) (u : List UpdateEntry)
    (mp : Option Bool) (now : Int) (h : MongoInv st) :
    MongoInv (MongoDBStorage.update_transaction st u mp now) := by
  induction u generalizing st with
  | nil => exact h
  | cons e rest ih =>
      simp only [MongoDBStorage.update_transaction]
      apply ih
      intro x hx
      rcases mem_updateFirst _ _ _ _ hx with hmem | ⟨md, hmd, heq⟩
      · exact h x hmem
      · subst heq
        constructor
        · show getKey (setKey md.fields "plaid2text" _) "pending" = _
          rw [getKey_setKey_ne _ _ _ _ (by decide)]
          exact (h md hmd).1
        · exact ⟨buildPatch e mp now, getKey_setKey_self _ _ _,
            buildPatch_ne_nil _ _ _⟩

theorem MongoInv_reach (loadTime : Int) (ops : List MongoOp) :
    MongoInv (mongoReach loadTime ops) := by
  have main : ∀ st, MongoInv st → MongoInv (ops.foldl (mongoApply loadTime) st) := by
    induction ops with
    | nil => intro st h; exact h
    | cons op rest ih =>
        intro st h
        apply ih
        cases op with
        | save now ts => exact MongoInv_save _ _ _ _ h
        | update u mp now => exact MongoInv_update _ _ _ _ h
  exact main [] (by intro md hmd; cases hmd)

/-! Membership and sortedness of the Mongo reader output. -/

theorem mem_insertByDate (md x : MDoc) (l : List MDoc) :
    x ∈ insertByDate md l ↔ x = md ∨ x ∈ l := by
  induction l with
  | nil => simp [insertByDate]
  | cons y ys ih =>
      by_cases h : docDate y ≤ docDate md
      · simp only [insertByDate, if_pos h, List.mem_cons, ih]
        tauto
      · simp only [insertByDate, if_neg h, List.mem_cons]

theorem mem_sortByDate (x : MDoc) (l : List MDoc) : x ∈ sortByDate l ↔ x ∈ l := by
  induction l with
  | nil => simp [sortByDate]
  | cons y ys ih => simp [sortByDate, mem_insertByDate, ih]

theorem mem_mongoGet (st : MongoState) (f t : Option Int) (onew : Bool) (md : MDoc) :
    md ∈ MongoDBStorage.get_transactions st f t onew
      ↔ md ∈ st ∧ ((!onew || pulledNeTrue md) && dateBound f t (docDate md)) = true := by
  unfold MongoDBStorage.get_transactions
  rw [mem_sortByDate]
  exact List.mem_filter

theorem datesSortedB_insert_cons (x md : MDoc) (xs : List MDoc)
    (hs : datesSortedB (x :: xs) = true) (hle : docDate x ≤ docDate md) :
    datesSortedB (x :: insertByDate md xs) = true := by
  induction xs generalizing x with
  | nil => simp [insertByDate, datesSortedB, hle]
  | cons y ys ih =>
      simp only [datesSortedB, Bool.and_eq_true, decide_eq_true_eq] at hs
      by_cases h : docDate y ≤ docDate md
      · simp only [insertByDate, if_pos h, datesSortedB, Bool.and_eq_true,
          decide_eq_true_eq]
        refine ⟨hs.1, ?_⟩
        have := ih y (by simp [datesSortedB, hs.2]) h
        simpa [insertByDate, if_pos h] using this
      · simp only [insertByDate, if_neg h, datesSortedB, Bool.and_eq_true,
          decide_eq_true_eq]
        exact ⟨hle, (not_le.mp h).le, hs.2⟩

theorem datesSortedB_insertByDate (md : MDoc) (l : List MDoc)
    (hs : datesSortedB l = true) : datesSortedB (insertByDate md l) = true := by
  cases l with
  | nil => simp [insertByDate, datesSortedB]
  | cons x xs =>
      by_cases h : docDate x ≤ docDate md
      · simp only [insertByDate, if_pos h]
        exact datesSortedB_insert_cons x md xs hs h
      · simp only [insertByDate, if_neg h]
        simp [datesSortedB, (not_le.mp h).le, hs]

theorem datesSortedB_sortByDate (l : List MDoc) :
    datesSortedB (sortByDate l) = true := by
  induction l with
  | nil => rfl
  | cons x xs ih => exact datesSortedB_insertByDate x _ ih

/-! The SQLite reader: empty fetch and membership. -/

theorem sqliteGet_of_no_match (st : SqliteState) (f t : Option Int) (onew : Bool)
    (h : st.filter (rowMatches onew f t) = []) :
    SQLiteStorage.get_transactions st f t onew
      = .error "IndexError: list index out of range" := by
  unfold SQLiteStorage.get_transactions
  rw [h]

theorem mem_exceptList_sqliteGet (st : SqliteState) (f t : Option Int) (onew : Bool)
    (d : Doc) :
    d ∈ exceptList (SQLiteStorage.get_transactions st f t onew)
      ↔ ∃ r, r ∈ st ∧ rowMatches onew f t r = true ∧ decodeRow r = d := by
  unfold SQLiteStorage.get_transactions
  cases hl : st.filter (rowMatches onew f t) with
  | nil =>
      simp only [exceptList]
      constructor
      · intro hx; simp at hx
      · rintro ⟨r, hr, hm, rfl⟩
        have hmem : r ∈ st.filter (rowMatches onew f t) :=
          List.mem_filter.mpr ⟨hr, hm⟩
        rw [hl] at hmem; cases hmem
  | cons r0 rest =>
      simp only [exceptList]
      constructor
      · intro hx
        rcases List.mem_map.mp hx with ⟨r, hrmem, rfl⟩
        have hmem : r ∈ st.filter (rowMatches onew f t) := hl ▸ hrmem
        rcases List.mem_filter.mp hmem with ⟨hst, hm⟩
        exact ⟨r, hst, hm, rfl⟩
      · rintro ⟨r, hr, hm, rfl⟩
        have hmem : r ∈ st.filter (rowMatches onew f t) :=
          List.mem_filter.mpr ⟨hr, hm⟩
        rw [hl] at hmem
        exact List.mem_map_of_mem _ hmem

theorem decodeRow_plaid2text_null (r : Row)
    (h : r.metadata = none ∨ r.metadata = some []) :
    getKey (decodeRow r) "plaid2text" = some (.jScal .snull) := by
  rcases h with h | h <;> simp [decodeRow, h, getKey_setKey_self]

/-! Remaining helper lemmas for the updater and the serializer. -/

theorem serialize_transaction_isSome (t : Txn) (h : t.authorized_date.isSome = true) :
    ∃ pj, serialize_transaction t = some pj := by
  cases ho : t.authorized_date with
  | none => rw [ho] at h; cases h
  | some a =>
      exact ⟨[("account_id", .sstr t.account_id), ("amount", .snum t.amount),
        ("iso_currency_code", optStr t.iso_currency_code), ("category", optArr t.category),
        ("category_id", optStr t.category_id), ("date", .snum t.date),
        ("name", .sstr t.name), ("pending", .sbool t.pending),
        ("pending_transaction_id", optStr t.pending_transaction_id),
        ("account_owner", optStr t.account_owner), ("transaction_id", .sstr t.transaction_id),
        ("authorized_date", .snum a), ("datetime", optNum t.datetime),
        ("payment_channel", .sstr t.payment_channel)],
        by simp [serialize_transaction, ho]⟩

theorem mongoFindDoc_updateFirst (st : MongoState) (id : String) (g : MDoc → MDoc)
    (hg : ∀ md, (g md).oid = md.oid) :
    mongoFindDoc (updateFirst st id g) id = (mongoFindDoc st id).map g := by
  induction st with
  | nil => rfl
  | cons md rest ih =>
      by_cases h : md.oid = id
      · simp only [updateFirst, if_pos h, mongoFindDoc]
        rw [if_pos (by rw [hg]; exact h)]
        rfl
      · simp only [updateFirst, if_neg h, mongoFindDoc]
        exact ih

theorem mongoFindDoc_isSome_of_mem (st : MongoState) (id : String) (md : MDoc)
    (hmem : md ∈ st) (hid : md.oid = id) : (mongoFindDoc st id).isSome = true := by
  induction st with
  | nil => cases hmem
  | cons x rest ih =>
      by_cases h : x.oid = id
      · simp [mongoFindDoc, h]
      · simp only [mongoFindDoc, if_neg h]
        rcases List.mem_cons.mp hmem with heq | hmem'
        · subst heq; exact absurd hid h
        · exact ih hmem'

/-!
Claims.
-/

/-- C1, counterexample: on the SQLite backend the metadata column is
overwritten by every save (the conflict branch sets metadata from the
incoming row).  Saving the transaction with key (A1, T1) first with an
explicit plaid2text object and then re-saving it as the upstream API
delivers it (no plaid2text) resets the stored metadata from that object
to NULL, with no update_transaction call anywhere — so re-saving does
reset the export metadata, and it is not written exactly once at first
insert. -/
theorem c1_counterexample :
    sqliteMetadataOf (SQLiteStorage.save_transactions [] 0 [txnM]).1 "A1" "T1"
      = some (some [("payee", .sstr "Blue Bottle")])
    ∧ sqliteMetadataOf
        (SQLiteStorage.save_transactions
          (SQLiteStorage.save_transactions [] 0 [txnM]).1 1 [txnA]).1 "A1" "T1"
      = some none
    ∧ txnM.pending = false ∧ txnA.pending = false
    ∧ txnA.transaction_id = txnM.transaction_id
    ∧ txnA.account_id = txnM.account_id := by
  decide

/-- C1, amended: for every non-pending transaction re-saved with the same
natural key, the stored metadata after the second save equals the stored
metadata after the first save provided the two saved records carry the
same (normally absent) plaid2text field.  On Mongo the metadata is
genuinely untouched by re-saves (written only via setOnInsert); on SQLite
each save rewrites the metadata column with the incoming value, which is
invisible only because both saves write the same value. -/
theorem c1_amended_resave_preserves_metadata
    (loadTime n1 n2 : Int) (stM : MongoState) (stS : SqliteState) (t t' : Txn)
    (hp : t.pending = false) (hp' : t'.pending = false)
    (hid : t'.transaction_id = t.transaction_id)
    (haid : t'.account_id = t.account_id)
    (hmeta : t'.plaid2text = t.plaid2text)
    (hser : t.authorized_date.isSome = true) :
    mongoMetadataOf
        (MongoDBStorage.save_transactions loadTime n2
          (MongoDBStorage.save_transactions loadTime n1 stM [t]) [t'])
        t.transaction_id
      = mongoMetadataOf (MongoDBStorage.save_transactions loadTime n1 stM [t])
          t.transaction_id
    ∧ sqliteMetadataOf
        (SQLiteStorage.save_transactions
          (SQLiteStorage.save_transactions stS n1 [t]).1 n2 [t']).1
        t.account_id t.transaction_id
      = sqliteMetadataOf (SQLiteStorage.save_transactions stS n1 [t]).1
          t.account_id t.transaction_id := by
  constructor
  · have h1 : MongoDBStorage.save_transactions loadTime n1 stM [t]
        = mongoSaveOne loadTime stM t := rfl
    have h2 : MongoDBStorage.save_transactions loadTime n2
        (mongoSaveOne loadTime stM t) [t'] = mongoSaveOne loadTime (mongoSaveOne loadTime stM t) t' := rfl
    rw [h1, h2]
    have hex : (mongoFindDoc (mongoSaveOne loadTime stM t) t'.transaction_id).isSome = true := by
      rw [hid]; exact mongoFindDoc_saveOne_isSome loadTime stM t hp
    have hpres := mongoMetadataOf_saveOne_existing loadTime
      (mongoSaveOne loadTime stM t) t' hp' hex
    rw [hid] at hpres
    exact hpres
  · rcases serialize_transaction_isSome t hser with ⟨pj, hpj⟩
    have hs1 : (SQLiteStorage.save_transactions stS n1 [t]).1
        = upsertRow stS t.account_id t.transaction_id n1 pj t.plaid2text := by
      rw [sqlite_save_single, hpj]
    have hmeta1 : sqliteMetadataOf (SQLiteStorage.save_transactions stS n1 [t]).1
        t.account_id t.transaction_id = some t.plaid2text := by
      rw [hs1]; exact sqliteMetadataOf_upsert _ _ _ _ _ _
    cases ho' : t'.authorized_date with
    | none =>
        have hskip : (SQLiteStorage.save_transactions
            (SQLiteStorage.save_transactions stS n1 [t]).1 n2 [t']).1
            = (SQLiteStorage.save_transactions stS n1 [t]).1 := by
          rw [sqlite_save_single]
          simp [serialize_transaction, ho']
        rw [hskip]
    | some a' =>
        rcases serialize_transaction_isSome t' (by rw [ho']; rfl) with ⟨pj', hpj'⟩
        have hs2 : (SQLiteStorage.save_transactions
            (SQLiteStorage.save_transactions stS n1 [t]).1 n2 [t']).1
            = upsertRow (SQLiteStorage.save_transactions stS n1 [t]).1
                t'.account_id t'.transaction_id n2 pj' t'.plaid2text := by
          rw [sqlite_save_single, hpj']
        rw [hs2, haid, hid, hmeta1, sqliteMetadataOf_upsert, hmeta]

/-- C1, witness: re-saving txnA twice on both backends leaves the stored
metadata of the first save unchanged. -/
theorem c1_amended_witness :
    (txnA.pending = false ∧ txnA.authorized_date.isSome = true)
    ∧ (mongoMetadataOf
        (MongoDBStorage.save_transactions 0 1
          (MongoDBStorage.save_transactions 0 0 [] [txnA]) [txnA]) txnA.transaction_id
      = mongoMetadataOf (MongoDBStorage.save_transactions 0 0 [] [txnA]) txnA.transaction_id
      ∧ sqliteMetadataOf
          (SQLiteStorage.save_transactions
            (SQLiteStorage.save_transactions [] 0 [txnA]).1 1 [txnA]).1
          txnA.account_id txnA.transaction_id
        = sqliteMetadataOf (SQLiteStorage.save_transactions [] 0 [txnA]).1
            txnA.account_id txnA.transaction_id) :=
  ⟨⟨rfl, rfl⟩,
   c1_amended_resave_preserves_metadata 0 0 1 [] [] txnA txnA rfl rfl rfl rfl rfl rfl⟩

/-- C2: evaluation at the failing input.  On the SQLite backend, after
storing T1, update_transaction with mark_pulled true raises NameError
(the undefined name null) and leaves the store unchanged, so no
transaction is ever marked; moreover get_transactions with only_new true
still includes T1, and the only_new filter inspects pulled_to_file inside
the plaid_json core column — a key the serializer never writes — so even
a successful metadata update could not exclude the record.  On the Mongo
backend the claimed behavior does hold. -/
theorem c2_sqlite_mark_pulled_broken :
    SQLiteStorage.update_transaction stS1
        [{ transaction_id := "T1", fields := [] }] (some true) 5
      = (stS1, some "NameError: name null is not defined")
    ∧ resultIncludesId (SQLiteStorage.get_transactions stS1 none none true) "T1" = true
    ∧ (sqliteFindRow stS1 "A1" "T1").map (fun r => getKey r.plaid_json "pulled_to_file")
      = some none
    ∧ (MongoDBStorage.get_transactions
        (MongoDBStorage.update_transaction stM1
          [{ transaction_id := "T1", fields := [] }] (some true) 5) none none true) = []
    ∧ (MongoDBStorage.get_transactions
        (MongoDBStorage.update_transaction stM1
          [{ transaction_id := "T1", fields := [] }] (some true) 5) none none false).any
        (fun md => decide (md.oid = "T1")) = true
    ∧ mongoSidecarGet
        (MongoDBStorage.update_transaction stM1
          [{ transaction_id := "T1", fields := [] }] (some true) 5) "T1" "pulled_to_file"
      = some (.sbool true) := by
  decide

/-- C3, counterexample: the SQLite saver has no pending check; saving a
pending transaction stores it, and the stored record is returned by
get_transactions with its pending flag still true. -/
theorem c3_counterexample :
    txnP.pending = true
    ∧ (SQLiteStorage.save_transactions [] 0 [txnP]).1 ≠ []
    ∧ resultIncludesId
        (SQLiteStorage.get_transactions
          (SQLiteStorage.save_transactions [] 0 [txnP]).1 none none true) "TP" = true
    ∧ getKey ((exceptList
        (SQLiteStorage.get_transactions
          (SQLiteStorage.save_transactions [] 0 [txnP]).1 none none true)).headI)
        "pending" = some (.jScal (.sbool true)) := by
  decide

/-- C3, amended: on the Mongo backend the invariant does hold — every
document returned by get_transactions from any state reachable through
the public mutators has pending false, because the saver skips pending
transactions.  The SQLite backend persists pending transactions (see the
counterexample). -/
theorem c3_amended_mongo_never_stores_pending
    (loadTime : Int) (ops : List MongoOp) (f t : Option Int) (onew : Bool) (md : MDoc)
    (h : md ∈ MongoDBStorage.get_transactions (mongoReach loadTime ops) f t onew) :
    getKey md.fields "pending" = some (.jScal (.sbool false)) := by
  have hmem : md ∈ mongoReach loadTime ops := ((mem_mongoGet _ _ _ _ _).mp h).1
  exact (MongoInv_reach loadTime ops md hmem).1

/-- C3, witness: the document returned after one save call is settled. -/
theorem c3_amended_witness :
    (mdW ∈ MongoDBStorage.get_transactions (mongoReach 0 [MongoOp.save 0 [txnA]]) none none true)
    ∧ getKey mdW.fields "pending" = some (.jScal (.sbool false)) :=
  ⟨by decide,
   c3_amended_mongo_never_stores_pending 0 [MongoOp.save 0 [txnA]] none none true mdW
     (by decide)⟩

/-- C4, counterexample: with both bounds given and from_date greater than
to_date the code adds no date filter at all, so the Mongo reader returns
the stored transaction of date 10 although 10 is not in the inclusive
range from 20 to 5 (which is empty); and the SQLite reader has no ORDER
BY: after saving dates 10 then 5 it returns them in table order 10, 5,
not ascending. -/
theorem c4_counterexample :
    (MongoDBStorage.get_transactions stM1 (some 20) (some 5) false).map docDate = [10]
    ∧ ¬((20 : Int) ≤ 10 ∧ (10 : Int) ≤ 5)
    ∧ ((exceptList (SQLiteStorage.get_transactions
          (SQLiteStorage.save_transactions [] 0 [txnA, txnB]).1 none none false)).map
        (fun d => getKey d "date"))
      = [some (.jScal (.snum 10)), some (.jScal (.snum 5))]
    ∧ ¬((10 : Int) ≤ 5) := by
  decide

/-- C4, amended: for every call with only_new false, the Mongo result
contains exactly the stored documents satisfying the date-bound predicate
— inclusive range when both bounds are given with from_date at most
to_date, one-sided comparison for a single bound, no filter when no bound
or when from_date exceeds to_date — and is sorted ascending by date; the
SQLite result (when the fetch does not raise) contains exactly the
decoded stored rows satisfying the same date-bound predicate, in table
order rather than sorted. -/
theorem c4_amended_date_filter (stM : MongoState) (stS : SqliteState) (f t : Option Int) :
    (∀ md, md ∈ MongoDBStorage.get_transactions stM f t false
        ↔ (md ∈ stM ∧ dateBound f t (docDate md) = true))
    ∧ datesSortedB (MongoDBStorage.get_transactions stM f t false) = true
    ∧ (∀ d, d ∈ exceptList (SQLiteStorage.get_transactions stS f t false)
        ↔ ∃ r, r ∈ stS ∧ dateBound f t (rowDate r) = true ∧ decodeRow r = d) := by
  refine ⟨?_, ?_, ?_⟩
  · intro md
    rw [mem_mongoGet]
    simp
  · unfold MongoDBStorage.get_transactions
    exact datesSortedB_sortByDate _
  · intro d
    rw [mem_exceptList_sqliteGet]
    simp [rowMatches]

/-- C5, counterexample: the Mongo updater replaces the whole plaid2text
sub-document with the patch.  Before the update the stored sidecar of T1
has payee equal to the empty string and an empty tags list; after an
update whose patch names only posting_account, the payee and tags fields
are gone — a metadata field not named in the patch did not retain its
prior stored value. -/
theorem c5_counterexample :
    mongoSidecarGet stM1 "T1" "payee" = some (.sstr "")
    ∧ mongoSidecarGet stM1 "T1" "tags" = some (.sarr [])
    ∧ mongoSidecarGet stM3 "T1" "payee" = none
    ∧ mongoSidecarGet stM3 "T1" "tags" = none
    ∧ mongoSidecarGet stM3 "T1" "posting_account" = some (.sstr "Assets:Checking") := by
  decide

/-- C5, amended: the Mongo updater sets the stored plaid2text of the
targeted id to exactly the in-memory patched object buildPatch — the
patch fields plus pulled_to_file and possibly date_last_pulled — a full
replacement of the sidecar that drops prior fields not in the patch; the
SQLite updater (whose SQL would json_patch-merge into the existing
metadata) never reaches the database: any nonempty update list raises
NameError and leaves the store unchanged. -/
theorem c5_amended_update_replaces_sidecar
    (stM : MongoState) (e : UpdateEntry) (mp : Option Bool) (now : Int)
    (stS : SqliteState) (u : List UpdateEntry) (mpS : Option Bool) (nowS : Int)
    (hex : ∃ md, md ∈ stM ∧ md.oid = e.transaction_id) (hu : u ≠ []) :
    mongoMetadataOf (MongoDBStorage.update_transaction stM [e] mp now) e.transaction_id
      = some (.jObj (buildPatch e mp now))
    ∧ SQLiteStorage.update_transaction stS u mpS nowS
      = (stS, some "NameError: name null is not defined") := by
  constructor
  · have h1 : MongoDBStorage.update_transaction stM [e] mp now
        = updateFirst stM e.transaction_id (fun md =>
            { md with
              fields := setKey md.fields "plaid2text" (.jObj (buildPatch e mp now)) }) := rfl
    unfold mongoMetadataOf
    rw [h1, mongoFindDoc_updateFirst stM e.transaction_id (fun md =>
      { md with
        fields := setKey md.fields "plaid2text" (.jObj (buildPatch e mp now)) })
      (fun md => rfl)]
    rcases hex with ⟨md, hmem, hid⟩
    have hsome := mongoFindDoc_isSome_of_mem stM e.transaction_id md hmem hid
    cases hf : mongoFindDoc stM e.transaction_id with
    | none => rw [hf] at hsome; cases hsome
    | some md0 =>
        simp only [Option.map_some', Option.some_bind]
        exact getKey_setKey_self _ _ _
  · cases u with
    | nil => exact absurd rfl hu
    | cons e0 rest => rfl

/-- C5, witness: updating T1 on stM1 with a posting_account patch yields
exactly the patched object as the new sidecar, and the SQLite updater on
stS1 fails with NameError. -/
theorem c5_amended_witness :
    ((∃ md, md ∈ stM1 ∧ md.oid = "T1")
      ∧ ([{ transaction_id := "T1", fields := [] }] : List UpdateEntry) ≠ [])
    ∧ (mongoMetadataOf
        (MongoDBStorage.update_transaction stM1
          [{ transaction_id := "T1", fields := [("posting_account", .sstr "Assets:Checking")] }]
          (some true) 7) "T1"
      = some (.jObj (buildPatch
          { transaction_id := "T1", fields := [("posting_account", .sstr "Assets:Checking")] }
          (some true) 7))
      ∧ SQLiteStorage.update_transaction stS1
          [{ transaction_id := "T1", fields := [] }] (some true) 7
        = (stS1, some "NameError: name null is not defined")) :=
  ⟨⟨by decide, by decide⟩,
   c5_amended_update_replaces_sidecar stM1
     { transaction_id := "T1", fields := [("posting_account", .sstr "Assets:Checking")] }
     (some true) 7 stS1 [{ transaction_id := "T1", fields := [] }] (some true) 7
     (by decide) (by decide)⟩

/-- C6: evaluation at the failing input.  serialize_transaction is not
total on its declared fields: a None authorized_date raises instead of
mapping to null (while the None datetime of the same record is mapped to
an explicit null, and serialize_item maps a None consent expiration to an
explicit null); and in a SQLite batch save the failing first record
aborts the loop, so the following valid record T1 is never stored.  The
Mongo saver, by contrast, tolerates the same record and stores both. -/
theorem c6_nullable_fields_and_batch :
    serialize_transaction txnNoAuth = none
    ∧ SQLiteStorage.save_transactions [] 9 [txnNoAuth, txnA]
      = ([], some "AttributeError: NoneType object has no attribute isoformat")
    ∧ sqliteFindRow (SQLiteStorage.save_transactions [] 9 [txnNoAuth, txnA]).1 "A1" "T1" = none
    ∧ (serialize_transaction txnA).map (fun pj => getKey pj "datetime") = some (some .snull)
    ∧ getKey (serialize_item itemN) "consent_expiration_time" = some .snull
    ∧ (MongoDBStorage.save_transactions 0 9 [] [txnNoAuth, txnA]).length = 2 := by
  decide

/-- C7: evaluation at the failing input.  SQLiteStorage.check_pending
does not raise an UnsupportedOperation-style signal: its body prints a
console message and returns None (no boolean), and because the def lacks
a self parameter, invoking it as a bound method raises TypeError. -/
theorem c7_check_pending_stub :
    SQLiteStorage.check_pending.raisesUnsupported = false
    ∧ SQLiteStorage.check_pending.returnsBool = none
    ∧ SQLiteStorage.check_pending.printsNotImplementedMessage = true
    ∧ SQLiteStorage.check_pending.raisesTypeErrorOnBoundCall = true := by
  decide

/-- C8: every document the Mongo reader returns from a reachable state
carries a nonempty plaid2text object (so no returned record has an
absent or empty stored sidecar there), and every SQLite row matched by
the reader whose stored metadata column is NULL or decodes to an empty
object is returned — and returned with plaid2text null, never an empty
object. -/
theorem c8_empty_sidecar_reported_null
    (loadTime : Int) (ops : List MongoOp) (f t : Option Int) (onew : Bool) (md : MDoc)
    (hm : md ∈ MongoDBStorage.get_transactions (mongoReach loadTime ops) f t onew)
    (stS : SqliteState) (fS tS : Option Int) (onS : Bool) (r : Row)
    (hr : r ∈ stS) (hmatch : rowMatches onS fS tS r = true)
    (hempty : r.metadata = none ∨ r.metadata = some []) :
    (∃ o, getKey md.fields "plaid2text" = some (.jObj o) ∧ o ≠ [])
    ∧ decodeRow r ∈ exceptList (SQLiteStorage.get_transactions stS fS tS onS)
    ∧ getKey (decodeRow r) "plaid2text" = some (.jScal .snull) := by
  refine ⟨?_, ?_, decodeRow_plaid2text_null r hempty⟩
  · have hmem : md ∈ mongoReach loadTime ops := ((mem_mongoGet _ _ _ _ _).mp hm).1
    exact (MongoInv_reach loadTime ops md hmem).2
  · exact (mem_exceptList_sqliteGet _ _ _ _ _).mpr ⟨r, hr, hmatch, rfl⟩

/-- C8, witness: the concrete returned document for txnA has a nonempty
sidecar on Mongo, and the stored SQLite row for txnA (NULL metadata) is
returned with plaid2text null. -/
theorem c8_witness :
    (mdW ∈ MongoDBStorage.get_transactions (mongoReach 0 [MongoOp.save 0 [txnA]]) none none true
      ∧ rowW ∈ stS1 ∧ rowMatches true none none rowW = true
      ∧ (rowW.metadata = none ∨ rowW.metadata = some []))
    ∧ ((∃ o, getKey mdW.fields "plaid2text" = some (.jObj o) ∧ o ≠ [])
      ∧ decodeRow rowW ∈ exceptList (SQLiteStorage.get_transactions stS1 none none true)
      ∧ getKey (decodeRow rowW) "plaid2text" = some (.jScal .snull)) :=
  ⟨⟨by decide, by decide, by decide, by decide⟩,
   c8_empty_sidecar_reported_null 0 [MongoOp.save 0 [txnA]] none none true mdW (by decide)
     stS1 none none true rowW (by decide) (by decide) (by decide)⟩

/-- C9, counterexample: in a process whose module loaded at time 0, an
insert performed at time 5 stores date_downloaded 0 (the module-load
timestamp, not the insertion time) and date_last_pulled the empty string
(a sentinel string, not null). -/
theorem c9_counterexample :
    mongoSidecarGet (MongoDBStorage.save_transactions 0 5 [] [txnA]) "T1" "date_last_pulled"
      = some (.sstr "")
    ∧ Scal.sstr "" ≠ Scal.snull
    ∧ mongoSidecarGet (MongoDBStorage.save_transactions 0 5 [] [txnA]) "T1" "date_downloaded"
      = some (.snum 0)
    ∧ (0 : Int) ≠ 5 := by
  decide

/-- C9, amended: the default metadata applied at first insertion equals
tags empty, payee empty, posting_account empty, associated_account
empty, date_downloaded the module-load timestamp (the same value for
every insert of the process, whatever the insertion time), date_last_pulled
the empty string (not null), and pulled_to_file false. -/
theorem c9_amended_default_metadata
    (loadTime now : Int) (st : MongoState) (t : Txn)
    (hp : t.pending = false) (hnew : mongoFindDoc st t.transaction_id = none) :
    mongoMetadataOf (MongoDBStorage.save_transactions loadTime now st [t]) t.transaction_id
      = some (.jObj [("tags", .sarr []), ("payee", .sstr ""),
          ("posting_account", .sstr ""), ("associated_account", .sstr ""),
          ("date_downloaded", .snum loadTime), ("date_last_pulled", .sstr ""),
          ("pulled_to_file", .sbool false)]) := by
  have h1 : MongoDBStorage.save_transactions loadTime now st [t]
      = mongoSaveOne loadTime st t := rfl
  rw [h1]
  exact mongoMetadataOf_saveOne_new loadTime st t hp hnew

/-- C9, witness: inserting txnA at time 5 into an empty collection of a
process loaded at time 0 stores exactly that default. -/
theorem c9_amended_witness :
    (txnA.pending = false ∧ mongoFindDoc [] txnA.transaction_id = none)
    ∧ mongoMetadataOf (MongoDBStorage.save_transactions 0 5 [] [txnA]) txnA.transaction_id
      = some (.jObj [("tags", .sarr []), ("payee", .sstr ""),
          ("posting_account", .sstr ""), ("associated_account", .sstr ""),
          ("date_downloaded", .snum 0), ("date_last_pulled", .sstr ""),
          ("pulled_to_file", .sbool false)]) :=
  ⟨⟨rfl, rfl⟩, c9_amended_default_metadata 0 5 [] txnA rfl rfl⟩

/-- C10: the SQLite reader returns normally only when the query matches
at least one stored row; whenever the filter matches zero rows — in
particular on an empty table — it fails with the index-out-of-range
error of the unconditional first-row print instead of returning an empty
sequence. -/
theorem c10_empty_fetch_raises (st : SqliteState) (f t : Option Int) (onew : Bool)
    (h : st.filter (rowMatches onew f t) = []) :
    SQLiteStorage.get_transactions st f t onew
      = .error "IndexError: list index out of range" :=
  sqliteGet_of_no_match st f t onew h

/-- C10, witness: reading an empty table raises. -/
theorem c10_witness :
    (([] : SqliteState).filter (rowMatches true none none) = [])
    ∧ SQLiteStorage.get_transactions ([] : SqliteState) none none true
      = .error "IndexError: list index out of range" :=
  ⟨rfl, c10_empty_fetch_raises [] none none true rfl⟩

end Plaid2Text
